import Mathlib

/-!
Shallow embedding of src/tracing-subscriber/src/registry/sharded.rs.

The registry stores per-span data sharded by thread: a table maps each
thread identity to a shard, and a shard maps span ids to slots.  Hash maps
are embedded as association lists (first match wins, insert prepends, so
insert replaces observationally).  Panics are embedded as `Except.error`
with the panic message; the `panicking` flag of `std::thread::panicking`
and the poisoned state of the table lock are explicit parameters of the
operations.  Lock acquisition itself is not modelled beyond poisoning:
the embedding is sequential, one operation at a time, which matches the
claims (each speaks about the values operations compute and the state
they leave, not about interleavings inside one operation).

Two places in the source do not type-check as written (the file is a
draft) and are embedded by their evident meaning, which the repository
test `basically_works` pins down:
- the shard map is declared `HashMap<Id, T>` but is read through
  `Slot::get_mut` in `with_span` and written by `insert`; the only
  coherent reading, and the one under which the test passes, is that the
  map stores `Slot<T>` values and `insert` stores `Present(value)`;
- `try_steal` returns `mem::replace(..)` where its signature demands
  `Option<Slot<T>>`; the declared signature together with the early `?`
  return fixes the meaning: `None` when the id is unmapped, otherwise
  `Some` of the previous slot.
-/

/-- Association list lookup, first match wins (embeds HashMap::get). -/
def lookupList {K V : Type} [DecidableEq K] : List (K × V) → K → Option V
  | [], _ => none
  | (k, v) :: rest, k2 => if k = k2 then some v else lookupList rest k2

/-- Hash map embedded as an association list. -/
structure HMap (K V : Type) where
  entries : List (K × V)

/-- Lookup of a key (HashMap::get). -/
def HMap.get {K V : Type} [DecidableEq K] (m : HMap K V) (k : K) : Option V :=
  lookupList m.entries k

/-- Insert, replacing any previous binding observationally (HashMap::insert). -/
def HMap.insert {K V : Type} [DecidableEq K] (m : HMap K V) (k : K) (v : V) : HMap K V :=
  ⟨(k, v) :: m.entries⟩

/-- The empty map (HashMap::new). -/
def HMap.empty {K V : Type} : HMap K V :=
  ⟨[]⟩

theorem HMap.get_insert_self {K V : Type} [DecidableEq K] (m : HMap K V) (k : K) (v : V) :
    (m.insert k v).get k = some v := by
  simp [HMap.get, HMap.insert, lookupList]

theorem HMap.get_insert_ne {K V : Type} [DecidableEq K] (m : HMap K V) (k k2 : K) (v : V)
    (h : k ≠ k2) : (m.insert k v).get k2 = m.get k2 := by
  simp [HMap.get, HMap.insert, lookupList, h]

theorem HMap.get_empty {K V : Type} [DecidableEq K] (k : K) :
    (HMap.empty : HMap K V).get k = none := rfl

/-- Thread identity (struct Thread, line 17 of the source). -/
structure Thread where
  id : Nat
deriving DecidableEq, Repr

/-- Slot: either locally present data or data relocated to another shard
(enum Slot, lines 36 to 40 of the source). -/
inductive Slot (T : Type) where
  | Present (t : T)
  | Stolen (owner : Thread)
deriving Repr

/-- The span map held by one shard.  Declared `HashMap<Id, T>` in the
draft but read through `Slot::get_mut`, hence slots as values. -/
abbrev SpanMap (T : Type) := HMap Nat (Slot T)

/-- Per-thread shard (struct Shard, lines 24 to 26 of the source). -/
structure Shard (T : Type) where
  spans : SpanMap T

/-- The table of shards (struct Shards, line 22 of the source). -/
structure Shards (T : Type) where
  tbl : HMap Thread (Shard T)

/-- The registry (struct Registry, lines 13 to 15).  The `poisoned` field
embeds the poison state of the ShardedLock around the table: both the
read and the write acquisition return `Err` exactly when it is set. -/
structure Registry (T : Type) where
  shards : Shards T
  poisoned : Bool

/-- Shard::new (lines 121 to 125). -/
def Shard.new {T : Type} : Shard T :=
  ⟨HMap.empty⟩

/-- Registry::new (lines 95 to 99), with an unpoisoned lock. -/
def Registry.new {T : Type} : Registry T :=
  ⟨⟨HMap.empty⟩, false⟩

/-- handle_poison (lines 42 to 48): while panicking, degrade an `Err` to
`None`; otherwise an `Err` is a panic with message "registry poisoned". -/
def handle_poison {A : Type} (panicking : Bool) (result : Except Unit A) :
    Except String (Option A) :=
  if panicking then .ok result.toOption
  else
    match result with
    | .ok v => .ok (some v)
    | .error _ => .error "registry poisoned"

/-- Shards::with_shard (lines 103 to 112).  The closure slot `fopt`
embeds the `&mut Option<impl FnOnce..>` argument: the function returns
the result (`None` when the shard is absent or the closure was already
taken), the leftover closure slot, the updated table (the closure
mutates the shard through its lock), and the number of times the
closure was invoked (0 or 1), instrumenting single invocation. -/
def Shards.with_shard {T I : Type} (ss : Shards T) (thread : Thread)
    (fopt : Option (SpanMap T → SpanMap T × I)) :
    Option I × Option (SpanMap T → SpanMap T × I) × Shards T × Nat :=
  match ss.tbl.get thread with
  | none => (none, fopt, ss, 0)
  | some sh =>
    match fopt with
    | none => (none, none, ss, 0)
    | some f =>
      let p := f sh.spans
      (some p.2, none, ⟨ss.tbl.insert thread ⟨p.1⟩⟩, 1)

/-- Shards::new_shard_for (lines 114 to 117). -/
def Shards.new_shard_for {T : Type} (ss : Shards T) (thread : Thread) : Shards T :=
  ⟨ss.tbl.insert thread Shard.new⟩

/-- Registry::with_shard (lines 51 to 65): fast path under the read lock,
slow path creating the shard under the write lock.  Returns the result
(`Err` when the lock is poisoned, or when the unreachable final `ok_or`
fires), the updated registry, the total closure invocation count, and
whether a shard was created for `thread` (slow path taken). -/
def Registry.with_shard {T I : Type} (reg : Registry T) (thread : Thread)
    (f : SpanMap T → SpanMap T × I) :
    Except Unit I × Registry T × Nat × Bool :=
  if reg.poisoned then (.error (), reg, 0, false)
  else
    match Shards.with_shard reg.shards thread (some f) with
    | (some r, _, ss, n) => (.ok r, { reg with shards := ss }, n, false)
    | (none, fopt, ss, n) =>
      match Shards.with_shard (Shards.new_shard_for ss thread) thread fopt with
      | (some r, _, ss2, n2) => (.ok r, { reg with shards := ss2 }, n + n2, true)
      | (none, _, ss2, n2) => (.error (), { reg with shards := ss2 }, n + n2, true)

/-- The closure with_span passes to with_shard (lines 73 to 78).  `fopt`
embeds the `Option` around the caller-supplied closure taken with
`expect("called twice!")`; the user closure `T → T × I` embeds
`FnOnce(&mut T) -> I` as the new value paired with the result.  The
result carries a possible panic, and the count of user closure
invocations. -/
def spanBody {T I : Type} (fopt : Option (T → T × I)) (id : Nat) (spans : SpanMap T) :
    SpanMap T × (Except String (Option I) × Nat) :=
  match spans.get id with
  | some (Slot.Present v) =>
    match fopt with
    | some f =>
      let p := f v
      (spans.insert id (Slot.Present p.1), (.ok (some p.2), 1))
    | none => (spans, (.error "called twice!", 0))
  | some (Slot.Stolen _) => (spans, (.ok none, 0))
  | none => (spans, (.ok none, 0))

/-- Registry::with_span (lines 71 to 82).  The steal fallback is absent
in the source (`// TODO: steal`): when the id is not Present in the
calling shard, the function returns absence.  The trailing `?` on
`handle_poison(res)` flattens the nested option.  Returns the result, the
updated registry, and the user closure invocation count. -/
def Registry.with_span {T I : Type} (reg : Registry T) (panicking : Bool) (thread : Thread)
    (id : Nat) (f : T → T × I) : Except String (Option I) × Registry T × Nat :=
  match Registry.with_shard reg thread (spanBody (some f) id) with
  | (res, reg2, _, _) =>
    match res with
    | .error _ =>
      match handle_poison panicking (Except.error () : Except Unit (Option I)) with
      | .error msg => (.error msg, reg2, 0)
      | .ok o => (.ok o.join, reg2, 0)
    | .ok (inner, ucnt) =>
      match inner with
      | .error msg => (.error msg, reg2, ucnt)
      | .ok opt =>
        match handle_poison panicking (Except.ok opt : Except Unit (Option I)) with
        | .error msg => (.error msg, reg2, ucnt)
        | .ok o => (.ok o.join, reg2, ucnt)

/-- Registry::insert (lines 84 to 93): store the value in the calling
shard; outside a panic, a poisoned lock is `expect("poisoned")`.  Returns
the possible panic (ok embeds the `&Self` return), the updated registry,
and the internal closure invocation count. -/
def Registry.insert {T : Type} (reg : Registry T) (panicking : Bool) (thread : Thread)
    (id : Nat) (v : T) : Except String Unit × Registry T × Nat :=
  match Registry.with_shard reg thread (fun spans => (spans.insert id (Slot.Present v), ())) with
  | (ok, reg2, n, _) =>
    if !panicking then
      match ok with
      | .ok _ => (.ok (), reg2, n)
      | .error _ => (.error "poisoned", reg2, n)
    else (.ok (), reg2, n)

/-- Registry::get_span (lines 67 to 69): the body is `unimplemented!()`,
a panic with the message "not implemented" on every input.  The intended
`Option<Ref<T>>` result is embedded as the value the handle would
expose. -/
def Registry.get_span {T : Type} (_reg : Registry T) (_thread : Thread) (_id : Nat) :
    Except String (Option T) :=
  .error "not implemented"

/-- Shard::span (lines 127 to 133): the value behind the lock when the
slot is Present. -/
def Shard.span {T : Type} (sh : Shard T) (id : Nat) : Option T :=
  match sh.spans.get id with
  | some (Slot.Present v) => some v
  | _ => none

/-- Shard::try_steal (lines 135 to 139), with the declared signature:
replace the slot at `id` by `Stolen(current)` and return the previous
contents, `none` when the id is unmapped. -/
def Shard.try_steal {T : Type} (sh : Shard T) (current : Thread) (id : Nat) :
    Option (Slot T) × Shard T :=
  match sh.spans.get id with
  | none => (none, sh)
  | some slot => (some slot, ⟨sh.spans.insert id (Slot.Stolen current)⟩)

/-- Thread local storage state for Thread::current (lines 142 to 160):
the process wide counter NEXT and the per thread cache MY_ID, the cache
keyed by an opaque OS thread name. -/
structure TlsState where
  next : Nat
  cache : HMap Nat Nat

/-- The initial state: NEXT at 0, every cache cell empty. -/
def TlsState.init : TlsState :=
  ⟨0, HMap.empty⟩

/-- Thread::current (lines 142 to 160): return the cached id, or claim
the next counter value, cache it and return it. -/
def Thread.current (tname : Nat) (s : TlsState) : Thread × TlsState :=
  match s.cache.get tname with
  | some id => (⟨id⟩, s)
  | none => (⟨s.next⟩, ⟨s.next + 1, s.cache.insert tname s.next⟩)

/-- Fold Thread::current over a history of calls, by thread name. -/
def TlsState.run (ns : List Nat) : TlsState :=
  ns.foldl (fun s n => (Thread.current n s).2) TlsState.init

/-- A public registry operation, as issued by some thread. -/
inductive Op (T : Type) where
  | ins (panicking : Bool) (thread : Thread) (id : Nat) (v : T)
  | wsp (panicking : Bool) (thread : Thread) (id : Nat) (f : T → T)

/-- Whether an operation inserts at span id `i`. -/
def Op.touches {T : Type} (op : Op T) (i : Nat) : Bool :=
  match op with
  | .ins _ _ j _ => j == i
  | .wsp _ _ _ _ => false

/-- One public operation applied to the registry state. -/
def Registry.step {T : Type} (reg : Registry T) : Op T → Registry T
  | .ins p t i v => (Registry.insert reg p t i v).2.1
  | .wsp p t i f => (Registry.with_span reg p t i (fun v => (f v, ()))).2.1

/-- A sequence of public operations applied to the registry state. -/
def Registry.run {T : Type} (reg : Registry T) : List (Op T) → Registry T
  | [] => reg
  | op :: ops => Registry.run (reg.step op) ops

/-- Whether stepping from `reg` to `reg2` created a shard for `t`. -/
def createdFor {T : Type} (reg reg2 : Registry T) (t : Thread) : Bool :=
  (reg.shards.tbl.get t).isNone && (reg2.shards.tbl.get t).isSome

/-- Number of shard creations for thread `t` along a run of operations. -/
def creations {T : Type} (t : Thread) (reg : Registry T) : List (Op T) → Nat
  | [] => 0
  | op :: ops =>
    let reg2 := reg.step op
    (if createdFor reg reg2 t then 1 else 0) + creations t reg2 ops

/-- The slot stored for span id `i` as seen from the shard of thread
`t`, absence when that thread has no shard. -/
def Registry.lookup {T : Type} (reg : Registry T) (t : Thread) (i : Nat) : Option (Slot T) :=
  match reg.shards.tbl.get t with
  | some sh => sh.spans.get i
  | none => none

/-! Case equations for the public operations. -/

theorem with_shard_poisoned {T I : Type} (reg : Registry T) (t : Thread)
    (f : SpanMap T → SpanMap T × I) (hp : reg.poisoned = true) :
    Registry.with_shard reg t f = (.error (), reg, 0, false) := by
  simp [Registry.with_shard, hp]

theorem with_shard_fast {T I : Type} (reg : Registry T) (t : Thread)
    (f : SpanMap T → SpanMap T × I) (sh : Shard T) (hp : reg.poisoned = false)
    (hs : reg.shards.tbl.get t = some sh) :
    Registry.with_shard reg t f =
      (.ok (f sh.spans).2,
       { reg with shards := ⟨reg.shards.tbl.insert t ⟨(f sh.spans).1⟩⟩ }, 1, false) := by
  simp [Registry.with_shard, Shards.with_shard, hp, hs]

theorem with_shard_slow {T I : Type} (reg : Registry T) (t : Thread)
    (f : SpanMap T → SpanMap T × I) (hp : reg.poisoned = false)
    (hs : reg.shards.tbl.get t = none) :
    Registry.with_shard reg t f =
      (.ok (f HMap.empty).2,
       { reg with shards :=
          ⟨(reg.shards.tbl.insert t Shard.new).insert t ⟨(f HMap.empty).1⟩⟩ }, 1, true) := by
  simp [Registry.with_shard, Shards.with_shard, Shards.new_shard_for, hp, hs,
    HMap.get_insert_self, Shard.new]

theorem insert_poisoned_eq {T : Type} (reg : Registry T) (p : Bool) (t : Thread) (i : Nat)
    (v : T) (hp : reg.poisoned = true) :
    Registry.insert reg p t i v = ((if p then .ok () else .error "poisoned"), reg, 0) := by
  cases p <;> simp [Registry.insert, with_shard_poisoned reg t _ hp]

theorem insert_fast_eq {T : Type} (reg : Registry T) (p : Bool) (t : Thread) (i : Nat)
    (v : T) (sh : Shard T) (hp : reg.poisoned = false)
    (hs : reg.shards.tbl.get t = some sh) :
    Registry.insert reg p t i v =
      (.ok (),
       { reg with shards := ⟨reg.shards.tbl.insert t ⟨sh.spans.insert i (Slot.Present v)⟩⟩ },
       1) := by
  cases p <;> simp [Registry.insert, with_shard_fast reg t _ sh hp hs]

theorem insert_slow_eq {T : Type} (reg : Registry T) (p : Bool) (t : Thread) (i : Nat)
    (v : T) (hp : reg.poisoned = false) (hs : reg.shards.tbl.get t = none) :
    Registry.insert reg p t i v =
      (.ok (),
       { reg with shards :=
          ⟨(reg.shards.tbl.insert t Shard.new).insert t
            ⟨(HMap.empty : SpanMap T).insert i (Slot.Present v)⟩⟩ },
       1) := by
  cases p <;> simp [Registry.insert, with_shard_slow reg t _ hp hs]

theorem with_span_poisoned_eq {T I : Type} (reg : Registry T) (p : Bool) (t : Thread)
    (i : Nat) (f : T → T × I) (hp : reg.poisoned = true) :
    Registry.with_span reg p t i f =
      ((if p then .ok none else .error "registry poisoned"), reg, 0) := by
  cases p <;>
    simp [Registry.with_span, with_shard_poisoned reg t _ hp, handle_poison,
      Except.toOption, Option.join]

theorem with_span_present_eq {T I : Type} (reg : Registry T) (p : Bool) (t : Thread)
    (i : Nat) (f : T → T × I) (sh : Shard T) (v : T) (hp : reg.poisoned = false)
    (hs : reg.shards.tbl.get t = some sh) (hv : sh.spans.get i = some (Slot.Present v)) :
    Registry.with_span reg p t i f =
      (.ok (some (f v).2),
       { reg with shards :=
          ⟨reg.shards.tbl.insert t ⟨sh.spans.insert i (Slot.Present (f v).1)⟩⟩ },
       1) := by
  cases p <;>
    simp [Registry.with_span, with_shard_fast reg t _ sh hp hs, spanBody, hv,
      handle_poison, Except.toOption, Option.join]

theorem with_span_shardless_eq {T I : Type} (reg : Registry T) (p : Bool) (t : Thread)
    (i : Nat) (f : T → T × I) (hp : reg.poisoned = false)
    (hs : reg.shards.tbl.get t = none) :
    Registry.with_span reg p t i f =
      (.ok none,
       { reg with shards :=
          ⟨(reg.shards.tbl.insert t Shard.new).insert t ⟨(HMap.empty : SpanMap T)⟩⟩ },
       0) := by
  cases p <;>
    simp [Registry.with_span, with_shard_slow reg t _ hp hs, spanBody, HMap.get_empty,
      handle_poison, Except.toOption, Option.join]

theorem with_span_missing_eq {T I : Type} (reg : Registry T) (p : Bool) (t : Thread)
    (i : Nat) (f : T → T × I) (sh : Shard T) (hp : reg.poisoned = false)
    (hs : reg.shards.tbl.get t = some sh) (hv : sh.spans.get i = none) :
    Registry.with_span reg p t i f =
      (.ok none, { reg with shards := ⟨reg.shards.tbl.insert t ⟨sh.spans⟩⟩ }, 0) := by
  cases p <;>
    simp [Registry.with_span, with_shard_fast reg t _ sh hp hs, spanBody, hv,
      handle_poison, Except.toOption, Option.join]

theorem with_span_stolen_eq {T I : Type} (reg : Registry T) (p : Bool) (t : Thread)
    (i : Nat) (f : T → T × I) (sh : Shard T) (o : Thread) (hp : reg.poisoned = false)
    (hs : reg.shards.tbl.get t = some sh) (hv : sh.spans.get i = some (Slot.Stolen o)) :
    Registry.with_span reg p t i f =
      (.ok none, { reg with shards := ⟨reg.shards.tbl.insert t ⟨sh.spans⟩⟩ }, 0) := by
  cases p <;>
    simp [Registry.with_span, with_shard_fast reg t _ sh hp hs, spanBody, hv,
      handle_poison, Except.toOption, Option.join]

/-! Derived lemmas: state invariance and framing. -/

theorem HMap.get_insert_mono {K V : Type} [DecidableEq K] (m : HMap K V) (k t : K) (v : V)
    (h : (m.get t).isSome = true) : ((m.insert k v).get t).isSome = true := by
  by_cases hk : k = t
  · subst hk; simp [HMap.get_insert_self]
  · rw [HMap.get_insert_ne m k t v hk]; exact h

theorem with_shard_keeps_poisoned {T I : Type} (reg : Registry T) (t : Thread)
    (f : SpanMap T → SpanMap T × I) :
    ((Registry.with_shard reg t f).2.1).poisoned = reg.poisoned := by
  unfold Registry.with_shard
  split
  · rfl
  · split
    · rfl
    · split <;> rfl

theorem with_span_keeps_poisoned {T I : Type} (reg : Registry T) (p : Bool) (t : Thread)
    (i : Nat) (f : T → T × I) :
    ((Registry.with_span reg p t i f).2.1).poisoned = reg.poisoned := by
  have h2 := with_shard_keeps_poisoned reg t (spanBody (some f) i)
  unfold Registry.with_span
  rcases hw : Registry.with_shard reg t (spanBody (some f) i) with ⟨res, reg2, n, b⟩
  rw [hw] at h2
  simp at h2
  cases res with
  | error e =>
    cases hpp : handle_poison p (Except.error () : Except Unit (Option I)) <;> simp [hpp, h2]
  | ok pr =>
    rcases pr with ⟨inner, ucnt⟩
    cases inner with
    | error msg => simp [h2]
    | ok opt =>
      cases hpp : handle_poison p (Except.ok opt : Except Unit (Option I)) <;> simp [hpp, h2]

theorem insert_keeps_poisoned {T : Type} (reg : Registry T) (p : Bool) (t : Thread)
    (i : Nat) (v : T) :
    ((Registry.insert reg p t i v).2.1).poisoned = reg.poisoned := by
  have h2 := with_shard_keeps_poisoned reg t
    (fun spans => (spans.insert i (Slot.Present v), ()))
  unfold Registry.insert
  rcases hw : Registry.with_shard reg t (fun spans => (spans.insert i (Slot.Present v), ()))
    with ⟨res, reg2, n, b⟩
  rw [hw] at h2
  simp at h2
  cases p <;> cases res <;> simp [h2]

theorem step_keeps_poisoned {T : Type} (reg : Registry T) (op : Op T) :
    (reg.step op).poisoned = reg.poisoned := by
  cases op with
  | ins p t i v => exact insert_keeps_poisoned reg p t i v
  | wsp p t i f => exact with_span_keeps_poisoned reg p t i (fun v => (f v, ()))

theorem run_keeps_poisoned {T : Type} (ops : List (Op T)) (reg : Registry T) :
    (Registry.run reg ops).poisoned = reg.poisoned := by
  induction ops generalizing reg with
  | nil => rfl
  | cons op ops ih => rw [Registry.run, ih, step_keeps_poisoned]

theorem insert_found {T : Type} (reg : Registry T) (p : Bool) (t : Thread) (i : Nat)
    (v : T) (hp : reg.poisoned = false) :
    ∃ sh2 : Shard T,
      ((Registry.insert reg p t i v).2.1).shards.tbl.get t = some sh2 ∧
      sh2.spans.get i = some (Slot.Present v) := by
  cases hs : reg.shards.tbl.get t with
  | some sh =>
    rw [insert_fast_eq reg p t i v sh hp hs]
    exact ⟨_, HMap.get_insert_self _ _ _, HMap.get_insert_self _ _ _⟩
  | none =>
    rw [insert_slow_eq reg p t i v hp hs]
    exact ⟨_, HMap.get_insert_self _ _ _, HMap.get_insert_self _ _ _⟩

theorem with_span_absent_res {T I : Type} (reg : Registry T) (p : Bool) (t : Thread)
    (i : Nat) (f : T → T × I) (hp : reg.poisoned = false)
    (ha : Registry.lookup reg t i = none) :
    (Registry.with_span reg p t i f).1 = .ok none := by
  cases hs : reg.shards.tbl.get t with
  | some sh =>
    have hv : sh.spans.get i = none := by
      rw [Registry.lookup, hs] at ha; exact ha
    rw [with_span_missing_eq reg p t i f sh hp hs hv]
  | none =>
    rw [with_span_shardless_eq reg p t i f hp hs]

theorem with_span_lookup_frame {T I : Type} (reg : Registry T) (p : Bool) (t : Thread)
    (i : Nat) (f : T → T × I) (t2 : Thread) (j : Nat) (hj : j ≠ i) :
    Registry.lookup ((Registry.with_span reg p t i f).2.1) t2 j =
      Registry.lookup reg t2 j := by
  cases hp : reg.poisoned with
  | true => rw [with_span_poisoned_eq reg p t i f hp]
  | false =>
    cases hs : reg.shards.tbl.get t with
    | none =>
      rw [with_span_shardless_eq reg p t i f hp hs]
      by_cases ht : t2 = t
      · subst ht
        simp [Registry.lookup, hs, HMap.get_insert_self, HMap.get_empty]
      · have ht2 : t ≠ t2 := fun hh => ht hh.symm
        simp [Registry.lookup, HMap.get_insert_ne _ _ _ _ ht2]
    | some sh =>
      cases hv : sh.spans.get i with
      | none =>
        rw [with_span_missing_eq reg p t i f sh hp hs hv]
        by_cases ht : t2 = t
        · subst ht
          simp [Registry.lookup, hs, HMap.get_insert_self]
        · have ht2 : t ≠ t2 := fun hh => ht hh.symm
          simp [Registry.lookup, HMap.get_insert_ne _ _ _ _ ht2]
      | some sl =>
        cases sl with
        | Present v =>
          rw [with_span_present_eq reg p t i f sh v hp hs hv]
          by_cases ht : t2 = t
          · subst ht
            have hij : i ≠ j := fun hh => hj hh.symm
            simp [Registry.lookup, hs, HMap.get_insert_self,
              HMap.get_insert_ne _ _ _ _ hij]
          · have ht2 : t ≠ t2 := fun hh => ht hh.symm
            simp [Registry.lookup, HMap.get_insert_ne _ _ _ _ ht2]
        | Stolen o =>
          rw [with_span_stolen_eq reg p t i f sh o hp hs hv]
          by_cases ht : t2 = t
          · subst ht
            simp [Registry.lookup, hs, HMap.get_insert_self]
          · have ht2 : t ≠ t2 := fun hh => ht hh.symm
            simp [Registry.lookup, HMap.get_insert_ne _ _ _ _ ht2]

theorem insert_lookup_frame {T : Type} (reg : Registry T) (p : Bool) (t : Thread)
    (j : Nat) (v : T) (t2 : Thread) (i : Nat) (hij : j ≠ i) :
    Registry.lookup ((Registry.insert reg p t j v).2.1) t2 i =
      Registry.lookup reg t2 i := by
  cases hp : reg.poisoned with
  | true => rw [insert_poisoned_eq reg p t j v hp]
  | false =>
    cases hs : reg.shards.tbl.get t with
    | none =>
      rw [insert_slow_eq reg p t j v hp hs]
      by_cases ht : t2 = t
      · subst ht
        simp [Registry.lookup, hs, HMap.get_insert_self, HMap.get_empty,
          HMap.get_insert_ne _ _ _ _ hij]
      · have ht2 : t ≠ t2 := fun hh => ht hh.symm
        simp [Registry.lookup, HMap.get_insert_ne _ _ _ _ ht2]
    | some sh =>
      rw [insert_fast_eq reg p t j v sh hp hs]
      by_cases ht : t2 = t
      · subst ht
        simp [Registry.lookup, hs, HMap.get_insert_self, HMap.get_insert_ne _ _ _ _ hij]
      · have ht2 : t ≠ t2 := fun hh => ht hh.symm
        simp [Registry.lookup, HMap.get_insert_ne _ _ _ _ ht2]

theorem with_span_lookup_absent {T I : Type} (reg : Registry T) (p : Bool) (t : Thread)
    (i : Nat) (f : T → T × I) (h : ∀ t3, Registry.lookup reg t3 i = none) (t2 : Thread) :
    Registry.lookup ((Registry.with_span reg p t i f).2.1) t2 i = none := by
  cases hp : reg.poisoned with
  | true => rw [with_span_poisoned_eq reg p t i f hp]; exact h t2
  | false =>
    cases hs : reg.shards.tbl.get t with
    | none =>
      rw [with_span_shardless_eq reg p t i f hp hs]
      by_cases ht : t2 = t
      · subst ht
        simp [Registry.lookup, HMap.get_insert_self, HMap.get_empty]
      · have ht2 : t ≠ t2 := fun hh => ht hh.symm
        have := h t2
        simpa [Registry.lookup, HMap.get_insert_ne _ _ _ _ ht2] using this
    | some sh =>
      have hv : sh.spans.get i = none := by
        have := h t
        rw [Registry.lookup, hs] at this
        exact this
      rw [with_span_missing_eq reg p t i f sh hp hs hv]
      by_cases ht : t2 = t
      · subst ht
        simp [Registry.lookup, HMap.get_insert_self, hv]
      · have ht2 : t ≠ t2 := fun hh => ht hh.symm
        have := h t2
        simpa [Registry.lookup, HMap.get_insert_ne _ _ _ _ ht2] using this

theorem insert_tbl_mono {T : Type} (reg : Registry T) (p : Bool) (t : Thread) (i : Nat)
    (v : T) (t2 : Thread) (h : ((reg.shards.tbl.get t2).isSome) = true) :
    ((((Registry.insert reg p t i v).2.1).shards.tbl.get t2).isSome) = true := by
  cases hp : reg.poisoned with
  | true => rw [insert_poisoned_eq reg p t i v hp]; exact h
  | false =>
    cases hs : reg.shards.tbl.get t with
    | some sh =>
      rw [insert_fast_eq reg p t i v sh hp hs]
      exact HMap.get_insert_mono _ _ _ _ h
    | none =>
      rw [insert_slow_eq reg p t i v hp hs]
      exact HMap.get_insert_mono _ _ _ _ (HMap.get_insert_mono _ _ _ _ h)

theorem with_span_tbl_mono {T I : Type} (reg : Registry T) (p : Bool) (t : Thread)
    (i : Nat) (f : T → T × I) (t2 : Thread) (h : ((reg.shards.tbl.get t2).isSome) = true) :
    ((((Registry.with_span reg p t i f).2.1).shards.tbl.get t2).isSome) = true := by
  cases hp : reg.poisoned with
  | true => rw [with_span_poisoned_eq reg p t i f hp]; exact h
  | false =>
    cases hs : reg.shards.tbl.get t with
    | none =>
      rw [with_span_shardless_eq reg p t i f hp hs]
      exact HMap.get_insert_mono _ _ _ _ (HMap.get_insert_mono _ _ _ _ h)
    | some sh =>
      cases hv : sh.spans.get i with
      | none =>
        rw [with_span_missing_eq reg p t i f sh hp hs hv]
        exact HMap.get_insert_mono _ _ _ _ h
      | some sl =>
        cases sl with
        | Present v =>
          rw [with_span_present_eq reg p t i f sh v hp hs hv]
          exact HMap.get_insert_mono _ _ _ _ h
        | Stolen o =>
          rw [with_span_stolen_eq reg p t i f sh o hp hs hv]
          exact HMap.get_insert_mono _ _ _ _ h

theorem step_tbl_mono {T : Type} (reg : Registry T) (op : Op T) (t2 : Thread)
    (h : ((reg.shards.tbl.get t2).isSome) = true) :
    ((((reg.step op).shards.tbl.get t2).isSome) = true) := by
  cases op with
  | ins p t i v => exact insert_tbl_mono reg p t i v t2 h
  | wsp p t i f => exact with_span_tbl_mono reg p t i (fun v => (f v, ())) t2 h

theorem run_tbl_mono {T : Type} (ops : List (Op T)) :
    ∀ reg : Registry T, ∀ t2 : Thread, ((reg.shards.tbl.get t2).isSome) = true →
      ((((Registry.run reg ops).shards.tbl.get t2).isSome) = true) := by
  induction ops with
  | nil => intro reg t2 h; exact h
  | cons op ops ih =>
    intro reg t2 h
    exact ih (reg.step op) t2 (step_tbl_mono reg op t2 h)

theorem creations_zero_of_some {T : Type} (t : Thread) (ops : List (Op T)) :
    ∀ reg : Registry T, ((reg.shards.tbl.get t).isSome) = true →
      creations t reg ops = 0 := by
  induction ops with
  | nil => intro reg _; rfl
  | cons op ops ih =>
    intro reg h
    have h2 := step_tbl_mono reg op t h
    have hc : createdFor reg (reg.step op) t = false := by
      cases hg : reg.shards.tbl.get t with
      | none => rw [hg] at h; simp at h
      | some sh => simp [createdFor, hg]
    simp [creations, hc, ih (reg.step op) h2]

theorem creations_le_one {T : Type} (t : Thread) (ops : List (Op T)) :
    ∀ reg : Registry T, creations t reg ops ≤ 1 := by
  induction ops with
  | nil => intro reg; simp [creations]
  | cons op ops ih =>
    intro reg
    cases hc : createdFor reg (reg.step op) t with
    | false => simpa [creations, hc] using ih (reg.step op)
    | true =>
      have h2 : (((reg.step op).shards.tbl.get t).isSome) = true := by
        simp [createdFor] at hc
        exact hc.2
      simp [creations, hc, creations_zero_of_some t ops (reg.step op) h2]

theorem with_shard_created_absent {T I : Type} (reg : Registry T) (t : Thread)
    (f : SpanMap T → SpanMap T × I)
    (h : (Registry.with_shard reg t f).2.2.2 = true) :
    reg.shards.tbl.get t = none := by
  cases hp : reg.poisoned with
  | true => rw [with_shard_poisoned reg t f hp] at h; simp at h
  | false =>
    cases hs : reg.shards.tbl.get t with
    | none => rfl
    | some sh => rw [with_shard_fast reg t f sh hp hs] at h; simp at h

theorem absentAll_step {T : Type} (i : Nat) (reg : Registry T) (op : Op T)
    (h : ∀ t3, Registry.lookup reg t3 i = none) (ht : op.touches i = false) :
    ∀ t2, Registry.lookup (reg.step op) t2 i = none := by
  cases op with
  | ins p t j v =>
    have hji : j ≠ i := by simpa [Op.touches] using ht
    intro t2
    show Registry.lookup ((Registry.insert reg p t j v).2.1) t2 i = none
    rw [insert_lookup_frame reg p t j v t2 i hji]
    exact h t2
  | wsp p t j f =>
    intro t2
    show Registry.lookup ((Registry.with_span reg p t j (fun v => (f v, ()))).2.1) t2 i = none
    by_cases hji : j = i
    · subst hji
      exact with_span_lookup_absent reg p t j _ h t2
    · rw [with_span_lookup_frame reg p t j _ t2 i (fun hh => hji hh.symm)]
      exact h t2

theorem absentAll_run {T : Type} (i : Nat) (ops : List (Op T)) :
    ∀ reg : Registry T, (∀ t3, Registry.lookup reg t3 i = none) →
      (∀ op ∈ ops, op.touches i = false) →
      ∀ t2, Registry.lookup (Registry.run reg ops) t2 i = none := by
  induction ops with
  | nil => intro reg h _ t2; exact h t2
  | cons op ops ih =>
    intro reg h hops t2
    have hop : op.touches i = false := hops op (List.mem_cons_self op ops)
    have hrest : ∀ op2 ∈ ops, Op.touches op2 i = false :=
      fun op2 hm => hops op2 (List.mem_cons_of_mem op hm)
    exact ih (reg.step op) (absentAll_step i reg op h hop) hrest t2

/-! Properties of the thread identity assignment. -/

/-- Well formedness of the thread local state: every cached id is below
the counter, and distinct thread names cache distinct ids. -/
def TlsWF (s : TlsState) : Prop :=
  (∀ a ia, s.cache.get a = some ia → ia < s.next) ∧
  (∀ a b ia ib, s.cache.get a = some ia → s.cache.get b = some ib → a ≠ b → ia ≠ ib)

theorem tlswf_init : TlsWF TlsState.init := by
  constructor
  · intro a ia h
    simp [TlsState.init, HMap.get_empty] at h
  · intro a b ia ib h
    simp [TlsState.init, HMap.get_empty] at h

theorem tlswf_current (tname : Nat) (s : TlsState) (h : TlsWF s) :
    TlsWF (Thread.current tname s).2 := by
  cases hc : s.cache.get tname with
  | some id =>
    simpa [Thread.current, hc] using h
  | none =>
    simp only [Thread.current, hc]
    constructor
    · intro a ia ha
      show ia < s.next + 1
      by_cases hat : tname = a
      · subst hat
        rw [HMap.get_insert_self] at ha
        simp at ha
        omega
      · rw [HMap.get_insert_ne _ _ _ _ hat] at ha
        have := h.1 a ia ha
        omega
    · intro a b ia ib ha hb hab
      by_cases hat : tname = a <;> by_cases hbt : tname = b
      · subst hat; subst hbt; exact absurd rfl hab
      · subst hat
        rw [HMap.get_insert_self] at ha
        rw [HMap.get_insert_ne _ _ _ _ hbt] at hb
        have := h.1 b ib hb
        simp at ha
        omega
      · subst hbt
        rw [HMap.get_insert_self] at hb
        rw [HMap.get_insert_ne _ _ _ _ hat] at ha
        have := h.1 a ia ha
        simp at hb
        omega
      · rw [HMap.get_insert_ne _ _ _ _ hat] at ha
        rw [HMap.get_insert_ne _ _ _ _ hbt] at hb
        exact h.2 a b ia ib ha hb hab

theorem tlswf_foldl (ns : List Nat) :
    ∀ s : TlsState, TlsWF s →
      TlsWF (ns.foldl (fun s n => (Thread.current n s).2) s) := by
  induction ns with
  | nil => intro s h; exact h
  | cons n ns ih =>
    intro s h
    exact ih _ (tlswf_current n s h)

theorem tlswf_run (ns : List Nat) : TlsWF (TlsState.run ns) :=
  tlswf_foldl ns TlsState.init tlswf_init

theorem current_stable (tname : Nat) (s : TlsState) :
    (Thread.current tname ((Thread.current tname s).2)).1 =
      (Thread.current tname s).1 := by
  cases hc : s.cache.get tname with
  | some id => simp [Thread.current, hc]
  | none => simp [Thread.current, hc, HMap.get_insert_self]

theorem current_distinct (t1 t2 : Nat) (s : TlsState) (h : TlsWF s) (hne : t1 ≠ t2) :
    (Thread.current t1 s).1 ≠ (Thread.current t2 ((Thread.current t1 s).2)).1 := by
  cases hc1 : s.cache.get t1 with
  | some i1 =>
    cases hc2 : s.cache.get t2 with
    | some i2 =>
      simp [Thread.current, hc1, hc2]
      exact h.2 t1 t2 i1 i2 hc1 hc2 hne
    | none =>
      have hlt := h.1 t1 i1 hc1
      simp [Thread.current, hc1, hc2]
      omega
  | none =>
    have hm : ((s.cache.insert t1 s.next).get t2) = s.cache.get t2 :=
      HMap.get_insert_ne _ _ _ _ hne
    cases hc2 : s.cache.get t2 with
    | some i2 =>
      have hlt := h.1 t2 i2 hc2
      simp [Thread.current, hc1, hm, hc2]
      omega
    | none =>
      simp [Thread.current, hc1, hm, hc2]

theorem current_of_cached (t : Nat) (s : TlsState) (id : Nat)
    (h : s.cache.get t = some id) : (Thread.current t s).1 = ⟨id⟩ := by
  simp [Thread.current, h]

theorem current_of_uncached (t : Nat) (s : TlsState) (h : s.cache.get t = none) :
    (Thread.current t s).1 = ⟨s.next⟩ := by
  simp [Thread.current, h]

theorem cache_persist (m : List Nat) :
    ∀ (s : TlsState) (a ia : Nat), s.cache.get a = some ia →
      ((m.foldl (fun s n => (Thread.current n s).2) s).cache.get a) = some ia := by
  induction m with
  | nil => intro s a ia h; exact h
  | cons n m ih =>
    intro s a ia h
    apply ih
    cases hc : s.cache.get n with
    | some id => simpa [Thread.current, hc] using h
    | none =>
      by_cases hna : n = a
      · subst hna
        rw [hc] at h
        exact absurd h (by simp)
      · simpa [Thread.current, hc, HMap.get_insert_ne _ _ _ _ hna] using h

theorem after_call_cached (t : Nat) (s : TlsState) :
    (((Thread.current t s).2).cache.get t) = some ((Thread.current t s).1).id := by
  cases hc : s.cache.get t with
  | some id => simp [Thread.current, hc]
  | none => simp [Thread.current, hc, HMap.get_insert_self]

theorem run_append (ns1 ns2 : List Nat) :
    TlsState.run (ns1 ++ ns2) =
      ns2.foldl (fun s n => (Thread.current n s).2) (TlsState.run ns1) := by
  simp [TlsState.run, List.foldl_append]

theorem run_call_cached (ns1 ns2 : List Nat) (t : Nat) :
    ((TlsState.run (ns1 ++ t :: ns2)).cache.get t) =
      some ((Thread.current t (TlsState.run ns1)).1).id := by
  have hrun : TlsState.run (ns1 ++ t :: ns2) =
      ns2.foldl (fun s n => (Thread.current n s).2)
        ((Thread.current t (TlsState.run ns1)).2) := run_append ns1 (t :: ns2)
  rw [hrun]
  exact cache_persist ns2 _ t _ (after_call_cached t (TlsState.run ns1))

theorem current_stable_run (ns1 ns2 : List Nat) (t : Nat) :
    (Thread.current t (TlsState.run (ns1 ++ t :: ns2))).1 =
      (Thread.current t (TlsState.run ns1)).1 :=
  current_of_cached t _ _ (run_call_cached ns1 ns2 t)

theorem current_distinct_run (ns1 ns2 : List Nat) (t1 t2 : Nat) (hne : t1 ≠ t2) :
    (Thread.current t1 (TlsState.run ns1)).1 ≠
      (Thread.current t2 (TlsState.run (ns1 ++ t1 :: ns2))).1 := by
  have hwf2 : TlsWF (TlsState.run (ns1 ++ t1 :: ns2)) := tlswf_run _
  have hc1 := run_call_cached ns1 ns2 t1
  cases hc2 : (TlsState.run (ns1 ++ t1 :: ns2)).cache.get t2 with
  | some i2 =>
    rw [current_of_cached t2 _ i2 hc2]
    have hids := hwf2.2 t1 t2 _ i2 hc1 hc2 hne
    intro hEq
    exact hids (congrArg Thread.id hEq)
  | none =>
    have hlt := hwf2.1 t1 _ hc1
    rw [current_of_uncached t2 _ hc2]
    intro hEq
    have h2 := congrArg Thread.id hEq
    simp at h2
    omega

/-! Remaining helper lemmas. -/

theorem insert_ok {T : Type} (reg : Registry T) (p : Bool) (t : Thread) (i : Nat) (v : T)
    (hp : reg.poisoned = false) :
    (Registry.insert reg p t i v).1 = .ok () ∧ (Registry.insert reg p t i v).2.2 = 1 := by
  cases hs : reg.shards.tbl.get t with
  | some sh => rw [insert_fast_eq reg p t i v sh hp hs]; exact ⟨rfl, rfl⟩
  | none => rw [insert_slow_eq reg p t i v hp hs]; exact ⟨rfl, rfl⟩

theorem with_span_some_count {T I : Type} (reg : Registry T) (p : Bool) (t : Thread)
    (i : Nat) (f : T → T × I) (r : I)
    (h : (Registry.with_span reg p t i f).1 = Except.ok (some r)) :
    (Registry.with_span reg p t i f).2.2 = 1 := by
  cases hp : reg.poisoned with
  | true =>
    rw [with_span_poisoned_eq reg p t i f hp] at h
    cases p <;> simp at h
  | false =>
    cases hs : reg.shards.tbl.get t with
    | none => rw [with_span_shardless_eq reg p t i f hp hs] at h; simp at h
    | some sh =>
      cases hv : sh.spans.get i with
      | none => rw [with_span_missing_eq reg p t i f sh hp hs hv] at h; simp at h
      | some sl =>
        cases sl with
        | Present v => rw [with_span_present_eq reg p t i f sh v hp hs hv]
        | Stolen o => rw [with_span_stolen_eq reg p t i f sh o hp hs hv] at h; simp at h

/-! The claims. -/

/-- C1: inserting value v under id i on a thread with an unpoisoned
registry, a subsequent with_span on the same thread and id invokes the
closure exactly once on v and returns its result wrapped in some; and
for an id never inserted along any sequence of public operations from
the fresh registry, with_span returns none. -/
theorem c1_insert_then_with_span {T I : Type} :
    (∀ (reg : Registry T) (t : Thread) (i : Nat) (v : T) (f : T → T × I),
      reg.poisoned = false →
        (((Registry.insert reg false t i v).2.1).with_span false t i f).1 =
          Except.ok (some (f v).2) ∧
        (((Registry.insert reg false t i v).2.1).with_span false t i f).2.2 = 1) ∧
    (∀ (ops : List (Op T)) (t : Thread) (i : Nat) (f : T → T × I),
      (∀ op ∈ ops, op.touches i = false) →
        ((Registry.run Registry.new ops).with_span false t i f).1 = Except.ok none) := by
  constructor
  · intro reg t i v f hp
    have hp1 : ((Registry.insert reg false t i v).2.1).poisoned = false := by
      rw [insert_keeps_poisoned]; exact hp
    obtain ⟨sh2, hs2, hv2⟩ := insert_found reg false t i v hp
    rw [with_span_present_eq _ false t i f sh2 v hp1 hs2 hv2]
    exact ⟨rfl, rfl⟩
  · intro ops t i f hops
    have habs := absentAll_run i ops Registry.new (fun t3 => rfl) hops
    have hp : (Registry.run (Registry.new : Registry T) ops).poisoned = false := by
      rw [run_keeps_poisoned]; rfl
    exact with_span_absent_res _ false t i f hp (habs t)

theorem c1_witness :
    ((((Registry.insert (Registry.new : Registry Nat) false ⟨0⟩ 5 7).2.1).with_span
        false ⟨0⟩ 5 (fun v => (v + 1, v * 2))).1 = Except.ok (some 14) ∧
      (((Registry.insert (Registry.new : Registry Nat) false ⟨0⟩ 5 7).2.1).with_span
        false ⟨0⟩ 5 (fun v => (v + 1, v * 2))).2.2 = 1) ∧
    ((Registry.run (Registry.new : Registry Nat) []).with_span false ⟨1⟩ 9
        (fun v => (v, v))).1 = Except.ok none :=
  ⟨c1_insert_then_with_span.1 Registry.new ⟨0⟩ 5 7 (fun v => (v + 1, v * 2)) rfl,
   c1_insert_then_with_span.2 [] ⟨1⟩ 9 (fun v => (v, v)) (by simp)⟩

/-- C4: on a poisoned table lock, insert and with_span return a best
effort result without a further panic when the calling thread is already
panicking, and panic when it is not. -/
theorem c4_poison_policy {T I : Type} (reg : Registry T) (t : Thread) (i : Nat) (v : T)
    (f : T → T × I) (hp : reg.poisoned = true) :
    (Registry.insert reg true t i v).1 = Except.ok () ∧
    (Registry.insert reg false t i v).1 = Except.error "poisoned" ∧
    (Registry.with_span reg true t i f).1 = Except.ok none ∧
    (Registry.with_span reg false t i f).1 = Except.error "registry poisoned" := by
  rw [insert_poisoned_eq reg true t i v hp, insert_poisoned_eq reg false t i v hp,
    with_span_poisoned_eq reg true t i f hp, with_span_poisoned_eq reg false t i f hp]
  exact ⟨rfl, rfl, rfl, rfl⟩

/-- A registry whose table lock is poisoned, used as concrete input. -/
def poisonedReg : Registry Nat :=
  ⟨⟨HMap.empty⟩, true⟩

theorem c4_witness :
    (Registry.insert poisonedReg true ⟨0⟩ 1 5).1 = Except.ok () ∧
    (Registry.insert poisonedReg false ⟨0⟩ 1 5).1 = Except.error "poisoned" ∧
    (Registry.with_span poisonedReg true ⟨0⟩ 1 (fun v => (v, v))).1 = Except.ok none ∧
    (Registry.with_span poisonedReg false ⟨0⟩ 1 (fun v => (v, v))).1 =
      Except.error "registry poisoned" :=
  c4_poison_policy poisonedReg ⟨0⟩ 1 5 (fun v => (v, v)) rfl

/-- C5: try_steal returns the previous slot contents (some of the old
slot when the id is mapped, none when absent), replaces a mapped slot by
Stolen of the current thread, leaves the shard unchanged when the id is
absent, and leaves every other id unchanged. -/
theorem c5_try_steal_spec {T : Type} (sh : Shard T) (cur : Thread) (i : Nat) :
    (sh.try_steal cur i).1 = sh.spans.get i ∧
    (∀ s : Slot T, sh.spans.get i = some s →
      ((sh.try_steal cur i).2).spans.get i = some (Slot.Stolen cur)) ∧
    (sh.spans.get i = none → (sh.try_steal cur i).2 = sh) ∧
    (∀ j : Nat, j ≠ i → ((sh.try_steal cur i).2).spans.get j = sh.spans.get j) := by
  refine ⟨?_, ?_, ?_, ?_⟩
  · cases hs : sh.spans.get i <;> simp [Shard.try_steal, hs]
  · intro s hs
    simp [Shard.try_steal, hs, HMap.get_insert_self]
  · intro hs
    simp [Shard.try_steal, hs]
  · intro j hj
    cases hs : sh.spans.get i with
    | none => simp [Shard.try_steal, hs]
    | some s =>
      have hij : i ≠ j := fun hh => hj hh.symm
      simp [Shard.try_steal, hs, HMap.get_insert_ne _ _ _ _ hij]

/-- A one entry shard used as concrete input. -/
def stealShard : Shard Nat :=
  ⟨HMap.insert HMap.empty 1 (Slot.Present 5)⟩

theorem c5_witness :
    (stealShard.try_steal ⟨7⟩ 1).1 = stealShard.spans.get 1 ∧
    ((stealShard.try_steal ⟨7⟩ 1).2).spans.get 1 = some (Slot.Stolen ⟨7⟩) ∧
    ((stealShard.try_steal ⟨7⟩ 1).2).spans.get 2 = stealShard.spans.get 2 :=
  ⟨(c5_try_steal_spec stealShard ⟨7⟩ 1).1,
   (c5_try_steal_spec stealShard ⟨7⟩ 1).2.1 (Slot.Present 5) rfl,
   (c5_try_steal_spec stealShard ⟨7⟩ 1).2.2.2 2 (by decide)⟩

/-- C6: a with_span call that returns a present result invoked the
caller closure exactly once; an insert call on an unpoisoned registry
returns normally having dispatched its internal closure exactly once;
and the dispatch path that would run the caller closure a second time
panics with "called twice!" instead of invoking it. -/
theorem c6_single_invocation {T I : Type} :
    (∀ (reg : Registry T) (p : Bool) (t : Thread) (i : Nat) (f : T → T × I) (r : I),
      (Registry.with_span reg p t i f).1 = Except.ok (some r) →
        (Registry.with_span reg p t i f).2.2 = 1) ∧
    (∀ (reg : Registry T) (p : Bool) (t : Thread) (i : Nat) (v : T),
      reg.poisoned = false →
        (Registry.insert reg p t i v).1 = Except.ok () ∧
        (Registry.insert reg p t i v).2.2 = 1) ∧
    (∀ (i : Nat) (spans : SpanMap T) (v : T),
      spans.get i = some (Slot.Present v) →
        (spanBody (none : Option (T → T × I)) i spans).2 =
          (Except.error "called twice!", 0)) := by
  refine ⟨?_, ?_, ?_⟩
  · intro reg p t i f r h
    exact with_span_some_count reg p t i f r h
  · intro reg p t i v hp
    exact insert_ok reg p t i v hp
  · intro i spans v h
    simp [spanBody, h]

theorem c6_witness :
    (((Registry.insert (Registry.new : Registry Nat) false ⟨0⟩ 1 4).2.1).with_span
        false ⟨0⟩ 1 (fun v => (v, v))).2.2 = 1 ∧
    ((Registry.insert (Registry.new : Registry Nat) false ⟨0⟩ 1 4).1 = Except.ok () ∧
      (Registry.insert (Registry.new : Registry Nat) false ⟨0⟩ 1 4).2.2 = 1) ∧
    (spanBody (none : Option (Nat → Nat × Nat)) 1
        (HMap.insert HMap.empty 1 (Slot.Present 4))).2 =
      (Except.error "called twice!", 0) :=
  ⟨(@c6_single_invocation Nat Nat).1 _ false ⟨0⟩ 1 (fun v => (v, v)) 4 rfl,
   (@c6_single_invocation Nat Nat).2.1 Registry.new false ⟨0⟩ 1 4 rfl,
   (@c6_single_invocation Nat Nat).2.2 1 (HMap.insert HMap.empty 1 (Slot.Present 4)) 4 rfl⟩

/-- C7: along any sequence of public operations at most one shard is
created for a given thread identity; a mapping present in the shard
table survives every later operation; and the slow path (shard
creation) runs only when the calling thread has no shard yet. -/
theorem c7_shard_creation {T I : Type} (reg : Registry T) (ops : List (Op T)) (t : Thread) :
    creations t reg ops ≤ 1 ∧
    (((reg.shards.tbl.get t).isSome) = true →
      (((Registry.run reg ops).shards.tbl.get t).isSome) = true) ∧
    (∀ f : SpanMap T → SpanMap T × I,
      (Registry.with_shard reg t f).2.2.2 = true → reg.shards.tbl.get t = none) :=
  ⟨creations_le_one t ops reg,
   fun h => run_tbl_mono ops reg t h,
   fun f h => with_shard_created_absent reg t f h⟩

/-- A registry owning one shard for thread 0, used as concrete input. -/
def oneShardReg : Registry Nat :=
  (Registry.insert Registry.new false ⟨0⟩ 1 2).2.1

theorem c7_witness :
    creations ⟨0⟩ oneShardReg
        [Op.ins false ⟨0⟩ 3 4, Op.wsp false ⟨0⟩ 1 (fun v => v + 1)] ≤ 1 ∧
    (((Registry.run oneShardReg
        [Op.ins false ⟨0⟩ 3 4, Op.wsp false ⟨0⟩ 1 (fun v => v + 1)]).shards.tbl.get
          ⟨0⟩).isSome) = true ∧
    (Registry.new : Registry Nat).shards.tbl.get ⟨0⟩ = none :=
  ⟨(@c7_shard_creation Nat Nat oneShardReg
      [Op.ins false ⟨0⟩ 3 4, Op.wsp false ⟨0⟩ 1 (fun v => v + 1)] ⟨0⟩).1,
   (@c7_shard_creation Nat Nat oneShardReg
      [Op.ins false ⟨0⟩ 3 4, Op.wsp false ⟨0⟩ 1 (fun v => v + 1)] ⟨0⟩).2.1 rfl,
   (@c7_shard_creation Nat Nat Registry.new [] ⟨0⟩).2.2
      (fun spans => (spans, 0)) rfl⟩

/-- C8: a with_span on id i leaves the slot (and hence the presence
status) of every other id j unchanged in every shard of the table. -/
theorem c8_no_crosstalk {T I : Type} (reg : Registry T) (p : Bool) (t : Thread) (i : Nat)
    (f : T → T × I) (t2 : Thread) (j : Nat) (hj : j ≠ i) :
    Registry.lookup ((Registry.with_span reg p t i f).2.1) t2 j =
      Registry.lookup reg t2 j :=
  with_span_lookup_frame reg p t i f t2 j hj

theorem c8_witness :
    Registry.lookup ((Registry.with_span oneShardReg false ⟨0⟩ 1
        (fun v => (v + 10, v))).2.1) ⟨0⟩ 3 = Registry.lookup oneShardReg ⟨0⟩ 3 :=
  c8_no_crosstalk oneShardReg false ⟨0⟩ 1 (fun v => (v + 10, v)) ⟨0⟩ 3 (by decide)

/-- C9: across any global history of identity requests, every call by a
given thread name returns the same identity: the call made after prefix
ns1 and any later call, separated by arbitrary interleaved calls ns2
from other threads, agree.  And identities handed to two distinct
thread names in one run always differ, so an identity is never reused:
two identities compare equal iff assigned to the same thread. -/
theorem c9_thread_identity :
    (∀ (ns1 ns2 : List Nat) (t : Nat),
      (Thread.current t (TlsState.run (ns1 ++ t :: ns2))).1 =
        (Thread.current t (TlsState.run ns1)).1) ∧
    (∀ (ns1 ns2 : List Nat) (t1 t2 : Nat), t1 ≠ t2 →
      (Thread.current t1 (TlsState.run ns1)).1 ≠
        (Thread.current t2 (TlsState.run (ns1 ++ t1 :: ns2))).1) :=
  ⟨fun ns1 ns2 t => current_stable_run ns1 ns2 t,
   fun ns1 ns2 t1 t2 hne => current_distinct_run ns1 ns2 t1 t2 hne⟩

theorem c9_witness :
    (Thread.current 1 (TlsState.run ([0] ++ 1 :: [3, 4]))).1 =
      (Thread.current 1 (TlsState.run [0])).1 ∧
    (Thread.current 0 (TlsState.run [9])).1 ≠
      (Thread.current 5 (TlsState.run ([9] ++ 0 :: [7]))).1 :=
  ⟨c9_thread_identity.1 [0] [3, 4] 1,
   c9_thread_identity.2 [9] [7] 0 5 (by decide)⟩

/-- C10: inserting twice under the same id silently overwrites: both
inserts return normally and a with_span then sees the second value. -/
theorem c10_insert_overwrites {T I : Type} (reg : Registry T) (t : Thread) (i : Nat)
    (v1 v2 : T) (f : T → T × I) (hp : reg.poisoned = false) :
    (Registry.insert reg false t i v1).1 = Except.ok () ∧
    (Registry.insert ((Registry.insert reg false t i v1).2.1) false t i v2).1 =
      Except.ok () ∧
    ((Registry.insert ((Registry.insert reg false t i v1).2.1) false t i
        v2).2.1.with_span false t i f).1 = Except.ok (some (f v2).2) := by
  have hp1 : ((Registry.insert reg false t i v1).2.1).poisoned = false := by
    rw [insert_keeps_poisoned]; exact hp
  have hp2 : ((Registry.insert ((Registry.insert reg false t i v1).2.1) false t i
      v2).2.1).poisoned = false := by
    rw [insert_keeps_poisoned]; exact hp1
  refine ⟨(insert_ok reg false t i v1 hp).1, (insert_ok _ false t i v2 hp1).1, ?_⟩
  obtain ⟨sh2, hs2, hv2⟩ := insert_found ((Registry.insert reg false t i v1).2.1)
    false t i v2 hp1
  rw [with_span_present_eq _ false t i f sh2 v2 hp2 hs2 hv2]

theorem c10_witness :
    (Registry.insert (Registry.new : Registry Nat) false ⟨0⟩ 1 10).1 = Except.ok () ∧
    (Registry.insert ((Registry.insert (Registry.new : Registry Nat) false ⟨0⟩ 1
        10).2.1) false ⟨0⟩ 1 20).1 = Except.ok () ∧
    ((Registry.insert ((Registry.insert (Registry.new : Registry Nat) false ⟨0⟩ 1
        10).2.1) false ⟨0⟩ 1 20).2.1.with_span false ⟨0⟩ 1 (fun v => (v, v))).1 =
      Except.ok (some 20) :=
  c10_insert_overwrites Registry.new ⟨0⟩ 1 10 20 (fun v => (v, v)) rfl

/-- A registry where thread 0 inserted value 42 under id 1, the failing
input for the cross thread steal claim. -/
def stealProbe : Registry Nat :=
  (Registry.insert Registry.new false ⟨0⟩ 1 42).2.1

/-- C2: evaluated at the failing input.  Thread 1 calling with_span on
an id inserted by thread 0 gets absence with zero closure invocations
(the steal fallback is missing in the source), and the slot stays
Present in the shard of thread 0 while the shard of thread 1 lacks
it. -/
theorem c2_steal_path_missing :
    (Registry.with_span stealProbe false ⟨1⟩ 1 (fun v => (v, v))).1 = Except.ok none ∧
    (Registry.with_span stealProbe false ⟨1⟩ 1 (fun v => (v, v))).2.2 = 0 ∧
    Registry.lookup ((Registry.with_span stealProbe false ⟨1⟩ 1 (fun v => (v, v))).2.1)
      ⟨0⟩ 1 = some (Slot.Present 42) ∧
    Registry.lookup ((Registry.with_span stealProbe false ⟨1⟩ 1 (fun v => (v, v))).2.1)
      ⟨1⟩ 1 = none :=
  ⟨rfl, rfl, rfl, rfl⟩

/-- C3: get_span is unimplemented in the source and panics with
"not implemented" on every input, even a present id. -/
theorem c3_get_span_panics {T : Type} (reg : Registry T) (t : Thread) (i : Nat) :
    Registry.get_span reg t i = Except.error "not implemented" :=
  rfl
